import Mathlib

/-!
Copy: a file / clipboard / pipe utility (`src/main.c`)

A shallow embedding of the C program and machine-checked statements about it.

Conventions of the embedding

* A C `char` buffer is a `List Char`; each element stands for one byte.  The
  terminating NUL of a C string is implicit at the end of the list, and a NUL
  byte inside the list ends the string early, exactly as `strlen` sees it.
* `int` values are `Int`; the counters of the line functions never exceed the
  argument `n`, so no overflow can occur there.
* `malloc`/`realloc` are assumed to succeed.
-/

namespace Copy

/-! ## C strings -/

/-- The NUL byte that terminates a C string. -/
def NUL : Char := Char.ofNat 0

/-- The C-string view of a buffer: the bytes before the first NUL (`strlen` many). -/
def cstr (buf : List Char) : List Char :=
  buf.takeWhile (fun c => c != NUL)

/-- Number of newline characters in a text. -/
def newlines (s : List Char) : Nat :=
  s.count '\n'

/-- The `strrchr(s, c)` of a NUL-free buffer: index of the last occurrence of `c`. -/
def strrchr (s : List Char) (c : Char) : Option Nat :=
  match s with
  | [] => none
  | x :: xs =>
    match strrchr xs c with
    | some i => some (i + 1)
    | none => if x = c then some 0 else none

/-! ## Line windows (`get_first_n_lines`, `get_last_n_lines`) -/

/-- The copy loop of `get_first_n_lines`:
`while (*src && lines < n) { *dest = *src; if (*src == '\n') lines++; dest++; src++; }`.
Returns the bytes copied and the final value of `lines`. -/
def first_loop (n : Int) : List Char → Int → List Char × Int
  | [], lines => ([], lines)
  | c :: src, lines =>
    if c ≠ NUL ∧ lines < n then
      let r := first_loop n src (if c = '\n' then lines + 1 else lines)
      (c :: r.1, r.2)
    else ([], lines)

/-- The function `get_first_n_lines(content, n)` for a non-null `content`;
`none` is the `NULL` result. -/
def get_first_n_lines (content : List Char) (n : Int) : Option (List Char) :=
  if n ≤ 0 then none
  else
    let r := first_loop n content 0
    let result := r.1
    let lines := r.2
    -- Trim if we stopped in the middle of a line
    if lines = n ∧ result.getLast? ≠ some '\n' then
      match strrchr result '\n' with
      | some last_newline => some (result.take (last_newline + 1))
      | none => some result
    else some result

/-- The backward scan of `get_last_n_lines` over the string `s`, with `start`
at offset `k` from `content`:
`while (start > content) { start--; if (*start == '\n') { lines++; if (lines == n) { start++; break; } } }`.
Returns the final offset of `start` and the final value of `lines`. -/
def last_scan (s : List Char) (n : Int) : Nat → Int → Nat × Int
  | 0, lines => (0, lines)
  | k + 1, lines =>
    if s[k]? = some '\n' then
      if lines + 1 = n then (k + 1, lines + 1)
      else last_scan s n k (lines + 1)
    else last_scan s n k lines

/-- The function `get_last_n_lines(content, n)` for a non-null `content`;
`none` is the `NULL` result. -/
def get_last_n_lines (content : List Char) (n : Int) : Option (List Char) :=
  if n ≤ 0 then none
  else
    let s := cstr content
    let r := last_scan s n s.length 0
    -- If we didn't find enough newlines, start from beginning
    let start := if r.2 < n then 0 else r.1
    some (s.drop start)

/-! ## Character classes and line input (the "C" locale) -/

/-- The `isspace` of the "C" locale: space, `\t`, `\n`, `\v`, `\f`, `\r`. -/
def isspace (c : Char) : Bool :=
  c == ' ' || c == '\t' || c == '\n' || c == Char.ofNat 11 || c == Char.ofNat 12 || c == '\r'

/-- The `tolower` of the "C" locale. -/
def tolower (c : Char) : Char :=
  if 'A' ≤ c ∧ c ≤ 'Z' then Char.ofNat (c.toNat + 32) else c

/-- The bytes one `fgets` call stores when `room` bytes fit before the
terminator: it stops after a newline, when the room is used up, or at the end
of the stream.  Returns the bytes stored and the rest of the stream. -/
def fgets_take : Nat → List Char → List Char × List Char
  | _, [] => ([], [])
  | room, c :: rest =>
    if room = 0 then ([], c :: rest)
    else if c = '\n' then ([c], rest)
    else
      let r := fgets_take (room - 1) rest
      (c :: r.1, r.2)

/-- The call `fgets(buf, size, stream)`: `none` (NULL) at end of input, otherwise
the bytes stored in `buf` and the rest of the stream. -/
def fgets (size : Nat) (stream : List Char) : Option (List Char × List Char) :=
  if stream = [] then none else some (fgets_take (size - 1) stream)

/-- The `atoi` of glibc, `(int) strtol(s, NULL, 10)`: optional white space, an
optional sign, decimal digits; saturating at the range of `long` and then
truncated to 32 bits. -/
def atoi (s : List Char) : Int :=
  let s1 := s.dropWhile isspace
  let neg := s1.head? == some '-'
  let s2 := if s1.head? == some '-' || s1.head? == some '+' then s1.drop 1 else s1
  let digits := s2.takeWhile Char.isDigit
  let v : Nat := digits.foldl (fun acc d => 10 * acc + (d.toNat - '0'.toNat)) 0
  let l : Int := if neg then max (-(v : Int)) (-(2 : Int) ^ 63) else min (v : Int) ((2 : Int) ^ 63 - 1)
  (l + 2 ^ 31) % 2 ^ 32 - 2 ^ 31

/-! ## The environment: file system, standard streams, clipboard helper

Paths are compared as strings (no links, no `.`/`..` normalisation).  A node is
a regular file or a directory; devices and other special nodes are not
modelled.  `fwrite` never writes short. -/

/-- A node of the file system as `stat` sees it. -/
inductive Node
  | file (bytes : List Char)
  | dir
  deriving DecidableEq, Repr

/-- File-system state. -/
structure FS where
  /-- What exists at a path. -/
  node : List Char → Option Node
  /-- Paths the system refuses to open for writing or to create. -/
  denyWrite : List Char → Bool
  /-- Paths the system refuses to open for reading. -/
  denyRead : List Char → Bool
  /-- The `st_size` reported for a directory. -/
  dirSize : List Char → Nat

/-- Something written to standard output or standard error. -/
inductive Out
  /-- A payload written with `printf("%s", content)`. -/
  | text (bytes : List Char)
  /-- A message written to stdout, named by its format string (arguments omitted). -/
  | note (fmt : String)
  /-- A message written to stderr, named by its format string (arguments omitted). -/
  | err (fmt : String)
  deriving DecidableEq, Repr

/-- Everything outside the program that a run reads or changes. -/
structure World where
  fs : FS
  /-- Unread bytes of standard input. -/
  stdin : List Char
  /-- Value of `isatty(fileno(stdin))`. -/
  tty : Bool
  /-- Byte stream the paste helper started by `popen` delivers; `none` when no helper starts. -/
  clipOut : Option (List Char)
  /-- Whether a copy helper takes the text and exits with status 0. -/
  clipAccepts : Bool
  /-- Text last taken by a copy helper. -/
  clipboard : Option (List Char)
  /-- Output written so far. -/
  out : List Out
  /-- The result of every `get_user_confirmation` call so far, in order. -/
  confirmLog : List Bool

/-- Append one output event. -/
def say (w : World) (e : Out) : World :=
  { w with out := w.out ++ [e] }

/-- Replace the node at `path`. -/
def set_node (fs : FS) (path : List Char) (n : Node) : FS :=
  { fs with node := fun p => if p = path then some n else fs.node p }

/-- Whether the directory part of `path` (up to its last `'/'`) exists. -/
def parent_ready (fs : FS) (path : List Char) : Bool :=
  match strrchr path '/' with
  | none => true
  | some 0 => true
  | some i => fs.node (path.take i) == some Node.dir

/-- Whether a new node can be created at `path`. -/
def can_create (fs : FS) (path : List Char) : Bool :=
  path != [] && path.getLast? != some '/' && parent_ready fs path

/-- The call `mkdir(path, 0755)`, its result ignored. -/
def mkdir (fs : FS) (path : List Char) : FS :=
  if (fs.node path).isNone && !fs.denyWrite path && can_create fs path then
    set_node fs path Node.dir
  else fs

/-- Opening `path` for writing: `fopen(path, "wb")` when `truncate`, `fopen(path, "ab")`
otherwise.  `none` when the open fails. -/
def fopen_w (fs : FS) (path : List Char) (truncate : Bool) : Option FS :=
  if fs.denyWrite path then none
  else
    match fs.node path with
    | some (Node.file old) => some (set_node fs path (Node.file (if truncate then [] else old)))
    | some Node.dir => none
    | none => if can_create fs path then some (set_node fs path (Node.file [])) else none

/-- Writing `bytes` at the end of the open file at `path`, i.e. `fwrite` then `fclose`. -/
def fwrite (fs : FS) (path : List Char) (bytes : List Char) : FS :=
  match fs.node path with
  | some (Node.file old) => set_node fs path (Node.file (old ++ bytes))
  | _ => fs

/-- The size `fopen(path, "rb")`, `fseek(SEEK_END)`, `ftell` find; `none` when the open fails. -/
def fopen_r_size (fs : FS) (path : List Char) : Option Nat :=
  if fs.denyRead path then none
  else
    match fs.node path with
    | some (Node.file bytes) => some bytes.length
    | _ => none

/-! ## File utilities -/

def MAX_PATH_LENGTH : Nat := 4096

def MAX_FILE_SIZE : Nat := 100 * 1024 * 1024

def file_exists (fs : FS) (path : List Char) : Bool :=
  (fs.node path).isSome

def is_regular_file (fs : FS) (path : List Char) : Bool :=
  match fs.node path with
  | some (Node.file _) => true
  | _ => false

def get_file_size (fs : FS) (path : List Char) : Int :=
  match fs.node path with
  | some (Node.file bytes) => bytes.length
  | some Node.dir => fs.dirSize path
  | none => -1

/-! ## Human-readable sizes (`get_human_readable_size`)

The function computes in `double`.  Every value it meets is a finite binary
fraction, so a `double` is kept exactly, as a sign, a numerator and a power of
two.  The conversion from `off_t` rounds to 53 significant bits (to nearest,
ties to even); dividing by 1024 only changes the exponent and is exact;
`%.1f` rounds the exact value to tenths (to nearest, ties to even, as glibc does). -/

/-- The function `get_user_confirmation(prompt, default_no)`: reads one line of
standard input and records its answer in the confirmation log. -/
def get_user_confirmation (prompt : String) (default_no : Bool) (w : World) : Bool × World :=
  let w1 := say w (Out.note (prompt ++ " [%s/%s]: "))
  match fgets 256 w1.stdin with
  | none =>
    -- EOF or error
    (false, { w1 with confirmLog := w1.confirmLog ++ [false] })
  | some (buf, rest) =>
    -- Trim newline: response[strcspn(response, "\n")] = 0
    let response := (cstr buf).takeWhile (fun c => c != '\n')
    let answer :=
      match response with
      | [] => !default_no
      | c :: _ => tolower c == 'y'
    (answer, { w1 with stdin := rest, confirmLog := w1.confirmLog ++ [answer] })

/-! ## Reading and writing files -/

/-- The function `read_file(path)`: the file's bytes (the caller sees them as a
C string), or `none` (NULL) when the open fails or the file is too large. -/
def read_file (path : List Char) (w : World) : Option (List Char) × World :=
  if w.fs.denyRead path then (none, say w (Out.err "Error opening file '%s': %s\n"))
  else
    match w.fs.node path with
    | some (Node.file bytes) =>
      if bytes.length > MAX_FILE_SIZE then (none, say w (Out.err "File too large: %s (max: %s)\n"))
      else (some bytes, w)
    | _ => (none, say w (Out.err "Error opening file '%s': %s\n"))

/-- The pattern around every prompt of the program: print the warning, then
`if (!get_user_confirmation(prompt, true)) { printf("Operation cancelled.\n"); return ...; }`.
The result is `false` when the caller returns at this point. -/
def confirm_or_cancel (warning prompt : String) (w : World) : Bool × World :=
  let r := get_user_confirmation prompt true (say w (Out.note warning))
  if !r.1 then (false, say r.2 (Out.note "Operation cancelled.\n"))
  else (true, r.2)

/-- The first block of `write_to_file`, up to its `return false` on a declined
prompt; `false` means that return was taken. -/
def write_to_file_gate (path : List Char) (overwrite force : Bool) (w : World) : Bool × World :=
  let file_exists_already := file_exists w.fs path
  if file_exists_already && !overwrite && !force then
    let size := get_file_size w.fs path
    if size = 0 then
      (true, say w (Out.note "Note: File '%s' exists but is empty. Overwriting.\n"))
    else
      confirm_or_cancel "Warning: File '%s' already exists (%s).\n" "Do you want to overwrite it?" w
  else (true, w)

/-- The rest of `write_to_file`: create the directory, open, write, close. -/
def write_to_file_body (path content : List Char) (w : World) : Bool × World :=
  -- Create directory if it doesn't exist
  let dir_path := path.take (MAX_PATH_LENGTH - 1)
  let fs1 :=
    match strrchr dir_path '/' with
    | some last_sep =>
      if (dir_path.take last_sep).length > 0 then mkdir w.fs (dir_path.take last_sep) else w.fs
    | none => w.fs
  match fopen_w fs1 path true with
  | none => (false, say { w with fs := fs1 } (Out.err "Error creating file '%s': %s\n"))
  | some fs2 => (true, { w with fs := fwrite fs2 path (cstr content) })

/-- The function `write_to_file(path, content, overwrite, force)`. -/
def write_to_file (path content : List Char) (overwrite force : Bool) (w : World) : Bool × World :=
  let g := write_to_file_gate path overwrite force w
  if !g.1 then (false, g.2)
  else write_to_file_body path content g.2

/-- The function `append_to_file(path, content)`. -/
def append_to_file (path content : List Char) (w : World) : Bool × World :=
  match fopen_w w.fs path false with
  | none => (false, say w (Out.err "Error opening file '%s': %s\n"))
  | some fs1 =>
    -- Check if file already has content (size > 0)
    let file_has_content :=
      match fopen_r_size fs1 path with
      | some current_size => decide (current_size > 0)
      | none => false
    -- If file has content, add a newline first
    let fs2 := if file_has_content then fwrite fs1 path ['\n'] else fs1
    -- Now append the actual content
    (true, { w with fs := fwrite fs2 path (cstr content) })

/-- The function `delete_file_content(path, force)`. -/
def delete_file_content (path : List Char) (force : Bool) (w : World) : Bool × World :=
  if !file_exists w.fs path then (false, say w (Out.err "File '%s' does not exist\n"))
  else if !is_regular_file w.fs path then (false, say w (Out.err "'%s' is not a regular file\n"))
  else
    let size := get_file_size w.fs path
    if size = 0 then (true, say w (Out.note "File '%s' is already empty.\n"))
    else
      let g : Bool × World :=
        if !force then
          confirm_or_cancel "Warning: This will delete all content from '%s' (%s).\n"
            "Do you want to continue?" w
        else (true, w)
      if !g.1 then (false, g.2)
      else
        match fopen_w g.2.fs path true with
        | none => (false, say g.2 (Out.err "Error opening file: %s\n"))
        | some fs1 =>
          (true, say (say { g.2 with fs := fs1 }
            (Out.note "All content successfully deleted from '%s'\n")) (Out.note "Bytes freed: %s\n"))

/-! ## Clipboard and standard input -/

/-- The function `copy_to_clipboard(text)` for a non-null `text`. -/
def copy_to_clipboard (text : List Char) (w : World) : Bool × World :=
  if w.clipAccepts then (true, { w with clipboard := some (cstr text) })
  else (false, w)

/-- The read loop of `paste_from_clipboard_unix`:
`while (fgets(buffer, sizeof(buffer), proc)) { ...; strcpy(result + size, buffer); size += len; }`.
The fuel bounds the number of `fgets` calls; each call takes at least one byte. -/
def paste_loop : Nat → List Char → Option (List Char) → Option (List Char)
  | 0, _, result => result
  | fuel + 1, stream, result =>
    match fgets 1024 stream with
    | none => result
    | some (buffer, rest) => paste_loop fuel rest (some (result.getD [] ++ cstr buffer))

/-- The function `paste_from_clipboard()`: `none` is the `NULL` result. -/
def paste_from_clipboard (w : World) : Option (List Char) :=
  match w.clipOut with
  | none => none
  | some stream => paste_loop stream.length stream none

/-- The function `read_from_stdin()`: everything up to end of input, or `none`
(NULL) when no byte was read. -/
def read_from_stdin (w : World) : Option (List Char) × World :=
  (if w.stdin = [] then none else some w.stdin, { w with stdin := [] })

/-- The backward scan of `trim_whitespace` with `end` at offset `e` of `str`:
`while (end > str && isspace((unsigned char)*end)) end--;`.  Returns the final offset. -/
def trim_scan (str : List Char) : Nat → Nat
  | 0 => 0
  | e + 1 => if (str[e + 1]?).any isspace then trim_scan str e else e + 1

/-- The function `trim_whitespace(str)`, which edits the buffer in place.
Returns the buffer after the call and the offset of the returned pointer. -/
def trim_whitespace (buf : List Char) : List Char × Nat :=
  let s := cstr buf
  -- Trim leading space
  let lead := (s.takeWhile isspace).length
  let str := s.drop lead
  if str = [] then (s, lead)
  else
    -- Trim trailing space
    let e := trim_scan str (str.length - 1)
    (s.take lead ++ str.take (e + 1), lead)

/-- The loop of `main` that removes trailing newlines from `trimmed`:
`while (len > 0 && (trimmed[len-1] == '\n' || trimmed[len-1] == '\r')) trimmed[--len] = '\0';`
with `len` the current length. -/
def strip_newlines (trimmed : List Char) : Nat → List Char
  | 0 => trimmed.take 0
  | len + 1 =>
    if trimmed[len]? = some '\n' ∨ trimmed[len]? = some '\r' then strip_newlines trimmed len
    else trimmed.take (len + 1)

/-! ## The driver (`main`) -/

/-- The option variables of `main`, with their initial values. -/
structure Options where
  copy_mode : Bool := true
  paste_mode : Bool := false
  delete_mode : Bool := false
  append_mode : Bool := false
  stdin_mode : Bool := false
  stdout_mode : Bool := false
  force_mode : Bool := false
  no_newline : Bool := false
  binary_mode : Bool := false
  lines_limit : Int := 0
  tail_lines : Int := 0
  filename : Option (List Char) := none
  deriving DecidableEq

/-- How the argument loop of `main` ends. -/
inductive Parsed
  /-- The flag `-v`/`--version` was met: print the version, return 0. -/
  | version
  /-- The flag `-h`/`--help` was met: print the help, return 0. -/
  | help
  /-- The loop ran to the end with these options. -/
  | run (o : Options)
  deriving DecidableEq

/-- The argument loop of `main` over `argv[i..]`. -/
def parse_args : List (List Char) → Options → Parsed
  | [], o => Parsed.run o
  | a :: rest, o =>
    if a.head? = some '-' then
      if a = "-c".toList ∨ a = "--copy".toList then
        parse_args rest { o with copy_mode := true, paste_mode := false, delete_mode := false }
      else if a = "-p".toList ∨ a = "--paste".toList then
        parse_args rest { o with paste_mode := true, copy_mode := false, delete_mode := false }
      else if a = "-d".toList ∨ a = "--delete".toList then
        parse_args rest { o with delete_mode := true, copy_mode := false, paste_mode := false }
      else if a = "-a".toList ∨ a = "--append".toList then
        parse_args rest { o with append_mode := true }
      else if a = "-s".toList ∨ a = "--stdin".toList then
        parse_args rest { o with stdin_mode := true }
      else if a = "-o".toList ∨ a = "--stdout".toList then
        parse_args rest { o with stdout_mode := true }
      else if a = "-f".toList ∨ a = "--force".toList then
        parse_args rest { o with force_mode := true }
      else if a = "-n".toList ∨ a = "--no-newline".toList then
        parse_args rest { o with no_newline := true }
      else if a = "-b".toList ∨ a = "--binary".toList then
        parse_args rest { o with binary_mode := true }
      else if a = "-v".toList ∨ a = "--version".toList then Parsed.version
      else if a = "-h".toList ∨ a = "--help".toList then Parsed.help
      else if a = "-l".toList ∨ a = "--lines".toList then
        match rest with
        | [] => Parsed.run o
        | v :: rest2 => parse_args rest2 { o with lines_limit := atoi v }
      else if a = "-t".toList ∨ a = "--tail".toList then
        match rest with
        | [] => Parsed.run o
        | v :: rest2 => parse_args rest2 { o with tail_lines := atoi v }
      else if a = "-m".toList ∨ a = "--max-size".toList then
        match rest with
        | [] => Parsed.run o
        | _ :: rest2 => parse_args rest2 o
      else parse_args rest o
    else if o.filename.isNone then parse_args rest { o with filename := some a }
    else parse_args rest o

/-- The `if (no_newline) { ... }` block of `main`: the `input` buffer afterwards. -/
def no_newline_block (input : List Char) : List Char :=
  let r := trim_whitespace input
  let trimmed := r.1.drop r.2
  -- Remove trailing newlines
  r.1.take r.2 ++ strip_newlines trimmed trimmed.length

/-- The confirmation block that `main` runs before pasting or piping into a file:
`if (file_exists_already && !append_mode && !force_mode) { ... return 2; ... }`.
`false` means the run ends here with exit code 2. -/
def main_overwrite_gate (filename : List Char) (o : Options) (w : World) : Bool × World :=
  let file_exists_already := file_exists w.fs filename
  if file_exists_already && !o.append_mode && !o.force_mode then
    let size := get_file_size w.fs filename
    if size = 0 then (true, say w (Out.note "Note: File '%s' exists but is empty. Proceeding.\n"))
    else
      confirm_or_cancel "Warning: File '%s' already exists (%s).\n" "Do you want to overwrite it?" w
  else (true, w)

/-- The code that `main` runs, in stdin mode and in paste mode alike, to put
`content` into the file `filename`: the confirmation block, then
`append_to_file` or `write_to_file(filename, content, false, force_mode)`.
The two format strings are the success messages of the caller. -/
def main_into_file (filename content : List Char) (o : Options) (appended written : String)
    (w : World) : Int × World :=
  -- Check if file exists and needs confirmation
  let g := main_overwrite_gate filename o w
  if !g.1 then (2, g.2)
  else if o.append_mode then
    let a := append_to_file filename content g.2
    if a.1 then (0, say a.2 (Out.note appended)) else (1, a.2)
  else
    let a := write_to_file filename content false o.force_mode g.2
    if a.1 then (0, say a.2 (Out.note written)) else (1, a.2)

/-- The last branch of stdin mode: `// Copy stdin to clipboard`. -/
def main_stdin_clipboard (input : List Char) (w : World) : Int × World :=
  let c := copy_to_clipboard input w
  if c.1 then (0, say c.2 (Out.note "✓ Copied %ld characters from stdin to clipboard\n"))
  else (1, say c.2 (Out.err "✗ Failed to copy to clipboard\n"))

/-- The block of `main` under `// Handle pipe/STDIN input`. -/
def main_stdin (o : Options) (w : World) : Int × World :=
  let r := read_from_stdin w
  match r.1 with
  | none => (1, say r.2 (Out.err "Failed to read from stdin\n"))
  | some input0 =>
    let w1 := r.2
    let input := if o.no_newline then no_newline_block input0 else input0
    if o.stdout_mode then (0, say w1 (Out.text (cstr input)))
    else
      match o.filename with
      | some filename =>
        if o.paste_mode then
          main_into_file filename input o "Appended %ld bytes to '%s'\n"
            "Written %ld bytes to '%s'\n" w1
        else main_stdin_clipboard input w1
      | none => main_stdin_clipboard input w1

/-- The block of `main` under `// Handle delete mode`. -/
def main_delete (o : Options) (w : World) : Int × World :=
  match o.filename with
  | none => (1, say w (Out.err "Error: File name required for delete operation\n"))
  | some filename =>
    let d := delete_file_content filename o.force_mode w
    (if d.1 then 0 else 1, d.2)

/-- The block of `main` under `// Handle paste mode`. -/
def main_paste (o : Options) (w : World) : Int × World :=
  match paste_from_clipboard w with
  | none => (1, say w (Out.err "Clipboard is empty or inaccessible\n"))
  | some clipboard =>
    let clip_len := (cstr clipboard).length
    if clip_len = 0 then (0, say w (Out.note "Clipboard is empty. Nothing to paste.\n"))
    else
      match (if o.stdout_mode then none else o.filename) with
      | none =>
        -- If no filename is provided OR stdout mode is enabled, output to stdout
        (0, say w (Out.text (cstr clipboard)))
      | some filename =>
        -- Otherwise, paste to file
        main_into_file filename clipboard o "✓ Appended %ld bytes from clipboard to '%s'\n"
          "✓ Pasted %ld bytes from clipboard to '%s'\n" w

/-- The size check of copy mode under `// Check file size for large files`;
`false` means the run ends here with exit code 2. -/
def main_copy_gate (filename : List Char) (o : Options) (w : World) : Bool × World :=
  let file_size := get_file_size w.fs filename
  if file_size = 0 && !o.force_mode then
    confirm_or_cancel "Warning: File '%s' is empty.\n" "Do you want to copy empty content?" w
  else if file_size > MAX_FILE_SIZE && !o.force_mode then
    confirm_or_cancel "Warning: File is large (%s).\n" "Do you want to continue?" w
  else (true, w)

/-- The end of copy mode: deliver `processed_content` to stdout or the clipboard. -/
def main_copy_deliver (processed_content : List Char) (o : Options) (w : World) : Int × World :=
  if o.stdout_mode then (0, say w (Out.text (cstr processed_content)))
  else
    let c := copy_to_clipboard processed_content w
    if c.1 then (0, say c.2 (Out.note "✓ Copied %ld characters from '%s' to clipboard\n"))
    else (1, say c.2 (Out.err "✗ Failed to copy to clipboard\n"))

/-- The branch of copy mode without a file name. -/
def main_copy_stdin (w : World) : Int × World :=
  let usage (w0 : World) : Int × World :=
    (1, say (say w0 (Out.err "Error: File name or input required for copy operation\n"))
      (Out.err "Use 'copycat -h' for help\n"))
  -- If no filename but we have stdin data, process it
  if !w.tty then
    let r := read_from_stdin w
    match r.1 with
    | some input =>
      let c := copy_to_clipboard input r.2
      if c.1 then (0, say c.2 (Out.note "✓ Copied %ld characters from stdin to clipboard\n"))
      else (1, say c.2 (Out.err "✗ Failed to copy to clipboard\n"))
    | none => usage r.2
  else usage w

/-- The block of `main` under `// Handle copy mode (default)`. -/
def main_copy (o : Options) (w : World) : Int × World :=
  match o.filename with
  | none => main_copy_stdin w
  | some filename =>
    if !file_exists w.fs filename then (1, say w (Out.err "Error: File '%s' does not exist\n"))
    else if !is_regular_file w.fs filename then
      (1, say w (Out.err "Error: '%s' is not a regular file\n"))
    else
      let g := main_copy_gate filename o w
      if !g.1 then (2, g.2)
      else
        let rd := read_file filename g.2
        match rd.1 with
        | none => (1, rd.2)
        | some content =>
          -- Apply line limits if specified
          let processed_content :=
            if o.lines_limit > 0 then (get_first_n_lines content o.lines_limit).getD content
            else if o.tail_lines > 0 then (get_last_n_lines content o.tail_lines).getD content
            else content
          main_copy_deliver processed_content o rd.2

/-- The part of `main` after the argument loop; `argc` is the argument count. -/
def main_run (argc : Nat) (o : Options) (w : World) : Int × World :=
  -- Handle pipe/STDIN input
  if o.stdin_mode || (!w.tty && argc == 1) then main_stdin o w
  else if o.delete_mode then main_delete o w
  else if o.paste_mode then main_paste o w
  else if o.copy_mode then main_copy o w
  else (0, say w (Out.note "help"))

/-- The function `main(argc, argv)`: the exit code and the world afterwards. -/
def main (argv : List (List Char)) (w : World) : Int × World :=
  match parse_args (argv.drop 1) {} with
  | Parsed.version => (0, say w (Out.note "Copy v%s\n"))
  | Parsed.help => (0, say w (Out.note "help"))
  | Parsed.run o => main_run argv.length o w

/-! ## Concrete environments -/

/-- A file system that holds exactly the listed nodes and refuses nothing. -/
def fs_of (nodes : List (List Char × Node)) : FS :=
  { node := fun p => nodes.lookup p
    denyWrite := fun _ => false
    denyRead := fun _ => false
    dirSize := fun _ => 4096 }

/-- A fresh world on a terminal: the listed nodes, the given unread input, the
given clipboard helper output, nothing printed and no prompt issued yet. -/
def world_of (nodes : List (List Char × Node)) (stdin : List Char)
    (clipOut : Option (List Char)) : World :=
  { fs := fs_of nodes
    stdin := stdin
    tty := true
    clipOut := clipOut
    clipAccepts := true
    clipboard := none
    out := []
    confirmLog := [] }

/-! ## Predicates on the effect of an operation -/

/-- What a confirmation block does: it never touches the file system; it issues
no prompt, or one prompt whose answer is the block's result.  With `force` it
issues none. -/
def Gate (force : Bool) (w : World) (g : Bool × World) : Prop :=
  g.2.fs = w.fs ∧
    ((g.1 = true ∧ g.2.confirmLog = w.confirmLog) ∨
      (force = false ∧ g.2.confirmLog = w.confirmLog ++ [g.1]))

/-- What a whole operation does to the confirmation log: it appends the answers
of the prompts it issued; with `force` it issues none; and if one of them was a
decline the file system is as it was before. -/
def Trace (force : Bool) (w w2 : World) : Prop :=
  ∃ l, w2.confirmLog = w.confirmLog ++ l ∧ (force = true → l = []) ∧
    (false ∈ l → w2.fs = w.fs)

/-! ## Lemmas on C strings and the line loops -/

theorem cstr_eq_self (T : List Char) (h : NUL ∉ T) : cstr T = T := by
  unfold cstr
  rw [List.takeWhile_eq_self_iff]
  intro c hc
  have : c ≠ NUL := fun e => h (e ▸ hc)
  simpa using this

theorem newlines_cons (c : Char) (s : List Char) :
    newlines (c :: s) = newlines s + (if c = '\n' then 1 else 0) := by
  unfold newlines
  rw [List.count_cons]
  by_cases h : c = '\n' <;> simp [h]

theorem newlines_append (a b : List Char) : newlines (a ++ b) = newlines a + newlines b := by
  unfold newlines
  exact List.count_append _ _ _

theorem first_loop_done (n : Int) (src : List Char) (lines : Int) (h : n ≤ lines) :
    first_loop n src lines = ([], lines) := by
  cases src with
  | nil => rfl
  | cons c src =>
    have : ¬ (c ≠ NUL ∧ lines < n) := fun hh => absurd hh.2 (not_lt.mpr h)
    simp only [first_loop, this, if_false]

theorem first_loop_step (n : Int) (c : Char) (src : List Char) (lines : Int)
    (hc : c ≠ NUL) (hlt : lines < n) :
    first_loop n (c :: src) lines =
      (c :: (first_loop n src (if c = '\n' then lines + 1 else lines)).1,
        (first_loop n src (if c = '\n' then lines + 1 else lines)).2) := by
  have hcond : c ≠ NUL ∧ lines < n := ⟨hc, hlt⟩
  rw [first_loop, if_pos hcond]

theorem getLast_cons_of_some (c x : Char) (l : List Char) (h : l.getLast? = some x) :
    (c :: l).getLast? = some x := by
  cases l with
  | nil => simp at h
  | cons d l => rw [List.getLast?_cons_cons]; exact h

/-- When the text holds enough newlines, the copy loop stops right after the one
that brings the count to `n`. -/
theorem first_loop_full (n : Int) :
    ∀ (T : List Char) (lines : Int), NUL ∉ T → lines < n → n ≤ lines + newlines T →
      ∃ rest, T = (first_loop n T lines).1 ++ rest ∧ (first_loop n T lines).2 = n ∧
        lines + newlines (first_loop n T lines).1 = n ∧
        (first_loop n T lines).1.getLast? = some '\n' := by
  intro T
  induction T with
  | nil =>
    intro lines _ hlt hle
    simp [newlines] at hle
    omega
  | cons c src ih =>
    intro lines hnul hlt hle
    have hc : c ≠ NUL := fun e => hnul (e ▸ List.mem_cons_self _ _)
    have hsrc : NUL ∉ src := fun hm => hnul (List.mem_cons_of_mem _ hm)
    rw [first_loop_step n c src lines hc hlt]
    rw [newlines_cons] at hle
    by_cases hnl : c = '\n'
    · rw [if_pos hnl]
      rw [if_pos hnl] at hle
      push_cast at hle
      by_cases hlast : lines + 1 = n
      · rw [first_loop_done n src (lines + 1) (le_of_eq hlast.symm)]
        refine ⟨src, by simp, hlast, ?_, by simp [hnl]⟩
        rw [newlines_cons, if_pos hnl]
        simp [newlines]
        omega
      · obtain ⟨rest, h1, h2, h3, h4⟩ := ih (lines + 1) hsrc (by omega) (by omega)
        refine ⟨rest, ?_, h2, ?_, getLast_cons_of_some _ _ _ h4⟩
        · simp only [List.cons_append, ← h1]
        · rw [newlines_cons, if_pos hnl]
          push_cast
          omega
    · rw [if_neg hnl]
      rw [if_neg hnl] at hle
      obtain ⟨rest, h1, h2, h3, h4⟩ := ih lines hsrc hlt (by simpa using hle)
      refine ⟨rest, ?_, h2, ?_, getLast_cons_of_some _ _ _ h4⟩
      · simp only [List.cons_append, ← h1]
      · rw [newlines_cons, if_neg hnl]
        simpa using h3

/-- When the text runs out before `n` newlines are met, the copy loop copies all of it. -/
theorem first_loop_short (n : Int) :
    ∀ (T : List Char) (lines : Int), NUL ∉ T → lines + newlines T < n →
      first_loop n T lines = (T, lines + newlines T) := by
  intro T
  induction T with
  | nil =>
    intro lines _ _
    simp [first_loop, newlines]
  | cons c src ih =>
    intro lines hnul hlt
    have hc : c ≠ NUL := fun e => hnul (e ▸ List.mem_cons_self _ _)
    have hsrc : NUL ∉ src := fun hm => hnul (List.mem_cons_of_mem _ hm)
    rw [newlines_cons] at hlt
    push_cast at hlt
    have hpos : (0 : Int) ≤ newlines src := Int.natCast_nonneg _
    by_cases hnl : c = '\n'
    · rw [if_pos hnl] at hlt
      rw [first_loop_step n c src lines hc (by omega), if_pos hnl,
        ih (lines + 1) hsrc (by omega), newlines_cons, if_pos hnl]
      push_cast
      simp only [Prod.mk.injEq, true_and]
      omega
    · rw [if_neg hnl] at hlt
      rw [first_loop_step n c src lines hc (by omega), if_neg hnl,
        ih lines hsrc (by omega), newlines_cons, if_neg hnl]
      simp

/-- The backward scan stops just past the newline that brings the count to `n`,
when the scanned part holds enough newlines. -/
theorem last_scan_full (s : List Char) (n : Int) :
    ∀ (k : Nat) (lines : Int), k ≤ s.length → lines < n → n ≤ lines + newlines (s.take k) →
      lines = newlines (s.drop k) →
      ∃ j, last_scan s n k lines = (j + 1, n) ∧ s[j]? = some '\n' ∧
        (newlines (s.drop (j + 1)) : Int) = n - 1 := by
  intro k
  induction k with
  | zero =>
    intro lines _ hlt hle _
    simp [newlines] at hle
    omega
  | succ k ih =>
    intro lines hk hlt hle hcnt
    have hk1 : k < s.length := hk
    have hget : s[k]? = some s[k] := List.getElem?_eq_getElem hk1
    have htake : s.take (k + 1) = s.take k ++ [s[k]] := by
      rw [List.take_succ, hget]; rfl
    have hdrop : s.drop k = s[k] :: s.drop (k + 1) := List.drop_eq_getElem_cons hk1
    rw [htake, newlines_append, newlines_cons] at hle
    simp only [newlines, List.count_nil, zero_add] at hle
    by_cases hnl : s[k] = '\n'
    · have hq : s[k]? = some '\n' := by rw [hget, hnl]
      rw [if_pos hnl] at hle
      push_cast at hle
      by_cases hlast : lines + 1 = n
      · refine ⟨k, ?_, hq, ?_⟩
        · simp only [last_scan, hq, if_true, hlast]
        · rw [← hcnt]; omega
      · have hrec := ih (lines + 1) (by omega) (by omega)
          (by simp only [newlines]; omega)
          (by rw [hcnt, hdrop, newlines_cons, if_pos hnl]; push_cast; rfl)
        obtain ⟨j, h1, h2, h3⟩ := hrec
        refine ⟨j, ?_, h2, h3⟩
        simp only [last_scan, hq, if_true, hlast, if_false, h1]
    · have hq : ¬ s[k]? = some '\n' := by
        rw [hget]; intro e; exact hnl (Option.some.inj e)
      rw [if_neg hnl] at hle
      have hrec := ih lines (by omega) hlt
        (by simp only [newlines]; simpa using hle)
        (by rw [hcnt, hdrop, newlines_cons, if_neg hnl]; simp)
      obtain ⟨j, h1, h2, h3⟩ := hrec
      refine ⟨j, ?_, h2, h3⟩
      simp only [last_scan, hq, if_false, h1]

/-- The backward scan counts fewer than `n` newlines when the string holds fewer. -/
theorem last_scan_short (s : List Char) (n : Int) :
    ∀ (k : Nat) (lines : Int), k ≤ s.length → lines + newlines (s.take k) < n →
      (last_scan s n k lines).2 < n := by
  intro k
  induction k with
  | zero =>
    intro lines _ hlt
    simp [newlines] at hlt
    simpa [last_scan] using hlt
  | succ k ih =>
    intro lines hk hlt
    have hk1 : k < s.length := hk
    have hget : s[k]? = some s[k] := List.getElem?_eq_getElem hk1
    have htake : s.take (k + 1) = s.take k ++ [s[k]] := by
      rw [List.take_succ, hget]; rfl
    rw [htake, newlines_append, newlines_cons] at hlt
    simp only [newlines, List.count_nil, zero_add] at hlt
    have hpos : (0 : Int) ≤ List.count '\n' (s.take k) := Int.natCast_nonneg _
    by_cases hnl : s[k] = '\n'
    · have hq : s[k]? = some '\n' := by rw [hget, hnl]
      rw [if_pos hnl] at hlt
      push_cast at hlt
      have hlast : ¬ lines + 1 = n := by omega
      simp only [last_scan, hq, if_true, hlast, if_false]
      exact ih (lines + 1) (by omega) (by simp only [newlines]; omega)
    · have hq : ¬ s[k]? = some '\n' := by
        rw [hget]; intro e; exact hnl (Option.some.inj e)
      rw [if_neg hnl] at hlt
      simp only [last_scan, hq, if_false]
      exact ih lines (by omega) (by simp only [newlines]; simpa using hlt)

theorem tolower_eq_y (c : Char) : (tolower c == 'y') = (c == 'y' || c == 'Y') := by
  unfold tolower
  by_cases h : 'A' ≤ c ∧ c ≤ 'Z'
  · rw [if_pos h]
    obtain ⟨h1, h2⟩ := h
    have h1n : 65 ≤ c.toNat := Char.le_def.mp h1
    have h2n : c.toNat ≤ 90 := Char.le_def.mp h2
    have hc : c = Char.ofNat c.toNat := (Char.ofNat_toNat c).symm
    generalize c.toNat = n at *
    subst hc
    interval_cases n <;> decide
  · rw [if_neg h]
    by_cases hy : c = 'Y'
    · subst hy; exact absurd (by decide) h
    · simp [hy]

/-! ## Line windows: the claims -/

/-- C1: for every N > 0 and every NUL-free text T with at least N newlines,
`get_first_n_lines(T, N)` returns the prefix of T that ends at, and includes,
the N-th newline of T: a prefix with exactly N newlines whose last byte is a newline. -/
theorem get_first_n_lines_ends_at_nth_newline (T : List Char) (N : Int) (hN : 0 < N)
    (hnul : NUL ∉ T) (hT : N ≤ newlines T) :
    ∃ r rest, get_first_n_lines T N = some r ∧ T = r ++ rest ∧
      (newlines r : Int) = N ∧ r.getLast? = some '\n' := by
  obtain ⟨rest, h1, h2, h3, h4⟩ := first_loop_full N T 0 hnul hN (by simpa using hT)
  refine ⟨(first_loop N T 0).1, rest, ?_, h1, by simpa using h3, h4⟩
  have hn : ¬ N ≤ 0 := not_le.mpr hN
  simp only [get_first_n_lines, hn, if_false, h2, h4, ne_eq, not_true_eq_false, and_false]

/-- C1, on the text of the scenario: two of three lines. -/
theorem get_first_n_lines_ends_at_nth_newline_witness :
    (0 : Int) < 2 ∧ NUL ∉ "line1\nline2\nline3\n".toList ∧
      (2 : Int) ≤ newlines "line1\nline2\nline3\n".toList ∧
      get_first_n_lines "line1\nline2\nline3\n".toList 2 = some "line1\nline2\n".toList ∧
      ∃ r rest, get_first_n_lines "line1\nline2\nline3\n".toList 2 = some r ∧
        "line1\nline2\nline3\n".toList = r ++ rest ∧
        (newlines r : Int) = 2 ∧ r.getLast? = some '\n' :=
  ⟨by decide, by decide, by decide, by decide,
    get_first_n_lines_ends_at_nth_newline "line1\nline2\nline3\n".toList 2
      (by decide) (by decide) (by decide)⟩

/-- C2: on three newline-terminated lines, `get_last_n_lines(T, 1)` returns the
empty string, not the last line: the scan counts the final newline as the first
of its `n` newlines. -/
theorem get_last_n_lines_one_of_three :
    get_last_n_lines "line1\nline2\nline3\n".toList 1 = some [] ∧
      get_last_n_lines "line1\nline2\nline3\n".toList 1 ≠ some "line3\n".toList := by
  decide

/-- C9: for every N > 0 and every NUL-free text T with fewer than N newlines
(so any text of fewer than N lines, and a single unterminated line for N = 1),
both `get_first_n_lines(T, N)` and `get_last_n_lines(T, N)` return all of T. -/
theorem line_windows_short_text (T : List Char) (N : Int) (hN : 0 < N)
    (hnul : NUL ∉ T) (hT : (newlines T : Int) < N) :
    get_first_n_lines T N = some T ∧ get_last_n_lines T N = some T := by
  have hn : ¬ N ≤ 0 := not_le.mpr hN
  constructor
  · have h := first_loop_short N T 0 hnul (by simpa using hT)
    have hne : ¬ ((0 : Int) + newlines T = N) := by omega
    simp only [get_first_n_lines, hn, if_false, h, hne, false_and]
  · have h := last_scan_short (cstr T) N (cstr T).length 0 (le_refl _)
      (by rw [List.take_length, cstr_eq_self T hnul]; simpa using hT)
    rw [cstr_eq_self T hnul] at h
    simp only [get_last_n_lines, hn, if_false, h, if_true, List.drop_zero, cstr_eq_self T hnul]

/-- C9, on a single line without a final newline and N = 1. -/
theorem line_windows_short_text_witness :
    (0 : Int) < 1 ∧ NUL ∉ "only line".toList ∧ (newlines "only line".toList : Int) < 1 ∧
      get_first_n_lines "only line".toList 1 = some "only line".toList ∧
      get_last_n_lines "only line".toList 1 = some "only line".toList :=
  ⟨by decide, by decide, by decide,
    line_windows_short_text "only line".toList 1 (by decide) (by decide) (by decide)⟩

/-- C10: for every n > 0 and every NUL-free text T with at least n newlines,
`get_last_n_lines(T, n)` returns the suffix of T that begins right after the
n-th newline counted backward from the end; the result holds exactly n - 1
newlines and is empty when n = 1 and T ends with a newline. -/
theorem get_last_n_lines_after_nth_newline_from_end (T : List Char) (n : Int) (hn : 0 < n)
    (hnul : NUL ∉ T) (hT : n ≤ newlines T) :
    ∃ pre r, get_last_n_lines T n = some r ∧ T = pre ++ '\n' :: r ∧
      (newlines r : Int) = n - 1 ∧ (n = 1 → T.getLast? = some '\n' → r = []) := by
  have hn0 : ¬ n ≤ 0 := not_le.mpr hn
  obtain ⟨j, h1, h2, h3⟩ := last_scan_full (cstr T) n (cstr T).length 0 (le_refl _) hn
    (by rw [List.take_length, cstr_eq_self T hnul]; simpa using hT)
    (by simp [newlines])
  rw [cstr_eq_self T hnul] at h1 h2 h3
  have hj : j < T.length := by
    rcases Nat.lt_or_ge j T.length with h | h
    · exact h
    · rw [List.getElem?_eq_none h] at h2; cases h2
  have hget : T[j] = '\n' := by
    rw [List.getElem?_eq_getElem hj] at h2; exact Option.some.inj h2
  have hsplit : T = T.take j ++ '\n' :: T.drop (j + 1) := by
    rw [← hget, ← List.drop_eq_getElem_cons hj, List.take_append_drop]
  refine ⟨T.take j, T.drop (j + 1), ?_, hsplit, h3, ?_⟩
  · have hlt : ¬ (n < n) := lt_irrefl n
    simp only [get_last_n_lines, hn0, if_false, cstr_eq_self T hnul, h1, hlt]
  · intro hn1 hlast
    by_contra hne
    have hlast2 : (T.drop (j + 1)).getLast? = some '\n' := by
      rw [hsplit, List.getLast?_append_of_ne_nil _ (List.cons_ne_nil _ _)] at hlast
      generalize T.drop (j + 1) = tl at hlast hne
      cases tl with
      | nil => exact absurd rfl hne
      | cons d tl => rw [List.getLast?_cons_cons] at hlast; exact hlast
    have hmem : '\n' ∈ T.drop (j + 1) := List.mem_of_getLast?_eq_some hlast2
    have hpos : 0 < newlines (T.drop (j + 1)) := List.count_pos_iff.mpr hmem
    omega

/-- C10, on three newline-terminated lines with n = 2: the result is the last line. -/
theorem get_last_n_lines_after_nth_newline_from_end_witness :
    (0 : Int) < 2 ∧ NUL ∉ "line1\nline2\nline3\n".toList ∧
      (2 : Int) ≤ newlines "line1\nline2\nline3\n".toList ∧
      get_last_n_lines "line1\nline2\nline3\n".toList 2 = some "line3\n".toList ∧
      ∃ pre r, get_last_n_lines "line1\nline2\nline3\n".toList 2 = some r ∧
        "line1\nline2\nline3\n".toList = pre ++ '\n' :: r ∧
        (newlines r : Int) = 2 - 1 ∧
        ((2 : Int) = 1 → "line1\nline2\nline3\n".toList.getLast? = some '\n' → r = []) :=
  ⟨by decide, by decide, by decide, by decide,
    get_last_n_lines_after_nth_newline_from_end "line1\nline2\nline3\n".toList 2
      (by decide) (by decide) (by decide)⟩

/-! ## The confirmation prompt: the claims -/

theorem fgets_cons (c : Char) (rest : List Char) (hc : c ≠ '\n') :
    fgets 256 (c :: rest) =
      some (c :: (fgets_take 254 rest).1, (fgets_take 254 rest).2) := by
  simp [fgets, fgets_take, hc]

/-- C7, as stated, fails on a line whose first byte is NUL: with the default
yes, the line NUL "no" is neither a bare newline nor led by 'y' or 'Y', yet the
answer is true, because the response reads as an empty C string. -/
theorem get_user_confirmation_nul_line :
    (get_user_confirmation "Continue?" false
        (world_of [] (NUL :: "no\n".toList) none)).1 = true ∧
      NUL ≠ '\n' ∧ (NUL == 'y' || NUL == 'Y') = false := by
  decide

/-- C7 (amended): the answer of `get_user_confirmation(prompt, default_no)` is
decided by the line read: at end of input it is false for either default; on a
bare newline, and on a line whose first byte is NUL, it is `!default_no`; on
any other line it is true exactly when the first character is 'y' or 'Y'. -/
theorem get_user_confirmation_answer (prompt : String) (default_no : Bool) (w : World) :
    (w.stdin = [] → (get_user_confirmation prompt default_no w).1 = false) ∧
    (∀ rest, w.stdin = '\n' :: rest →
      (get_user_confirmation prompt default_no w).1 = !default_no) ∧
    (∀ rest, w.stdin = NUL :: rest →
      (get_user_confirmation prompt default_no w).1 = !default_no) ∧
    (∀ c rest, w.stdin = c :: rest → c ≠ '\n' → c ≠ NUL →
      (get_user_confirmation prompt default_no w).1 = (c == 'y' || c == 'Y')) := by
  refine ⟨?_, ?_, ?_, ?_⟩
  · intro h
    simp [get_user_confirmation, say, fgets, h]
  · intro rest h
    simp [get_user_confirmation, say, fgets, fgets_take, h, cstr, NUL]
  · intro rest h
    have hn : NUL ≠ '\n' := by decide
    simp [get_user_confirmation, say, h, fgets_cons NUL rest hn, cstr]
  · intro c rest h hc hnul
    have hc1 : (c != NUL) = true := by simpa using hnul
    have hc2 : (c != '\n') = true := by simpa using hc
    simp only [get_user_confirmation, say, h, fgets_cons c rest hc, cstr,
      List.takeWhile_cons, hc1, hc2, if_true]
    exact tolower_eq_y c

/-- C7 (amended), on the inputs end-of-input, a bare newline with either
default, a NUL-led line with either default, and the lines "Yes", " y" and "no". -/
theorem get_user_confirmation_answer_witness :
    (get_user_confirmation "Continue?" false (world_of [] [] none)).1 = false ∧
    (get_user_confirmation "Continue?" false (world_of [] "\n".toList none)).1 = true ∧
    (get_user_confirmation "Continue?" true (world_of [] "\n".toList none)).1 = false ∧
    (get_user_confirmation "Continue?" false
      (world_of [] (NUL :: "no\n".toList) none)).1 = true ∧
    (get_user_confirmation "Continue?" true
      (world_of [] (NUL :: "yes\n".toList) none)).1 = false ∧
    (get_user_confirmation "Continue?" true (world_of [] "Yes\n".toList none)).1 = true ∧
    (get_user_confirmation "Continue?" false (world_of [] " y\n".toList none)).1 = false ∧
    (get_user_confirmation "Continue?" false (world_of [] "no\n".toList none)).1 = false :=
  ⟨(get_user_confirmation_answer "Continue?" false (world_of [] [] none)).1 rfl,
    (get_user_confirmation_answer "Continue?" false (world_of [] "\n".toList none)).2.1 [] rfl,
    (get_user_confirmation_answer "Continue?" true (world_of [] "\n".toList none)).2.1 [] rfl,
    (get_user_confirmation_answer "Continue?" false
      (world_of [] (NUL :: "no\n".toList) none)).2.2.1 "no\n".toList rfl,
    (get_user_confirmation_answer "Continue?" true
      (world_of [] (NUL :: "yes\n".toList) none)).2.2.1 "yes\n".toList rfl,
    (get_user_confirmation_answer "Continue?" true (world_of [] "Yes\n".toList none)).2.2.2
      'Y' "es\n".toList rfl (by decide) (by decide),
    (get_user_confirmation_answer "Continue?" false (world_of [] " y\n".toList none)).2.2.2
      ' ' "y\n".toList rfl (by decide) (by decide),
    (get_user_confirmation_answer "Continue?" false (world_of [] "no\n".toList none)).2.2.2
      'n' "o\n".toList rfl (by decide) (by decide)⟩

/-! ## How the operations touch the confirmation log and the file system -/

@[simp] theorem say_fs (w : World) (e : Out) : (say w e).fs = w.fs := rfl

@[simp] theorem say_confirmLog (w : World) (e : Out) : (say w e).confirmLog = w.confirmLog := rfl

/-- A call of `get_user_confirmation` leaves the file system alone. -/
theorem get_user_confirmation_fs (prompt : String) (d : Bool) (w : World) :
    (get_user_confirmation prompt d w).2.fs = w.fs := by
  unfold get_user_confirmation
  simp only []
  cases fgets 256 (say w (Out.note (prompt ++ " [%s/%s]: "))).stdin <;> rfl

/-- Every call of `get_user_confirmation` appends its answer to the confirmation log. -/
theorem get_user_confirmation_log (prompt : String) (d : Bool) (w : World) :
    (get_user_confirmation prompt d w).2.confirmLog =
      w.confirmLog ++ [(get_user_confirmation prompt d w).1] := by
  unfold get_user_confirmation
  simp only []
  cases fgets 256 (say w (Out.note (prompt ++ " [%s/%s]: "))).stdin <;> rfl

/-- A prompt block: the file system is as before and the log grows by the answer. -/
theorem confirm_or_cancel_spec (warning prompt : String) (w : World) :
    (confirm_or_cancel warning prompt w).2.fs = w.fs ∧
      (confirm_or_cancel warning prompt w).2.confirmLog =
        w.confirmLog ++ [(confirm_or_cancel warning prompt w).1] := by
  have hfs := get_user_confirmation_fs prompt true (say w (Out.note warning))
  have hlog := get_user_confirmation_log prompt true (say w (Out.note warning))
  unfold confirm_or_cancel
  generalize get_user_confirmation prompt true (say w (Out.note warning)) = r at hfs hlog
  rcases r with ⟨ans, w1⟩
  cases ans <;> simpa using ⟨hfs, hlog⟩

theorem gate_pass (force : Bool) (w : World) : Gate force w (true, w) :=
  ⟨rfl, Or.inl ⟨rfl, rfl⟩⟩

theorem gate_say (force : Bool) (w : World) (e : Out) : Gate force w (true, say w e) :=
  ⟨rfl, Or.inl ⟨rfl, rfl⟩⟩

theorem gate_confirm (force : Bool) (hf : force = false) (warning prompt : String) (w : World) :
    Gate force w (confirm_or_cancel warning prompt w) :=
  ⟨(confirm_or_cancel_spec warning prompt w).1, Or.inr ⟨hf, (confirm_or_cancel_spec warning prompt w).2⟩⟩

theorem write_to_file_gate_spec (path : List Char) (overwrite force : Bool) (w : World) :
    Gate force w (write_to_file_gate path overwrite force w) := by
  unfold write_to_file_gate
  simp only []
  split
  · rename_i h
    have hf : force = false := by
      cases force
      · rfl
      · simp at h
    split
    · exact gate_say _ _ _
    · exact gate_confirm force hf _ _ w
  · exact gate_pass _ _

theorem main_overwrite_gate_spec (filename : List Char) (o : Options) (w : World) :
    Gate o.force_mode w (main_overwrite_gate filename o w) := by
  unfold main_overwrite_gate
  simp only []
  split
  · rename_i h
    have hf : o.force_mode = false := by
      cases hfm : o.force_mode
      · rfl
      · simp [hfm] at h
    split
    · exact gate_say _ _ _
    · exact gate_confirm _ hf _ _ w
  · exact gate_pass _ _

theorem main_copy_gate_spec (filename : List Char) (o : Options) (w : World) :
    Gate o.force_mode w (main_copy_gate filename o w) := by
  unfold main_copy_gate
  simp only []
  split
  · rename_i h
    have hf : o.force_mode = false := by
      cases hfm : o.force_mode
      · rfl
      · simp [hfm] at h
    exact gate_confirm _ hf _ _ w
  · split
    · rename_i h
      have hf : o.force_mode = false := by
        cases hfm : o.force_mode
        · rfl
        · simp [hfm] at h
      exact gate_confirm _ hf _ _ w
    · exact gate_pass _ _

theorem trace_quiet (force : Bool) (w w2 : World) (h : w2.confirmLog = w.confirmLog) :
    Trace force w w2 :=
  ⟨[], by simpa using h, fun _ => rfl, fun hm => by simp at hm⟩

theorem trace_gate (force : Bool) (w : World) (g : Bool × World) (hg : Gate force w g) :
    Trace force w g.2 := by
  obtain ⟨hfs, h | ⟨hf, hl⟩⟩ := hg
  · exact trace_quiet force w g.2 h.2
  · refine ⟨[g.1], hl, ?_, fun _ => hfs⟩
    intro ht
    rw [hf] at ht
    cases ht

theorem trace_after_gate (force : Bool) (w : World) (g : Bool × World) (w2 : World)
    (hg : Gate force w g) (hpass : g.1 = true) (ht : Trace force g.2 w2) :
    Trace force w w2 := by
  obtain ⟨hfs, h | ⟨hf, hl⟩⟩ := hg
  · obtain ⟨l, h1, h2, h3⟩ := ht
    exact ⟨l, by rw [h1, h.2], h2, fun hm => by rw [h3 hm, hfs]⟩
  · obtain ⟨l, h1, h2, h3⟩ := ht
    refine ⟨g.1 :: l, by rw [h1, hl]; simp, ?_, ?_⟩
    · intro hforce
      rw [hf] at hforce
      cases hforce
    intro hm
    rw [hpass] at hm
    have hm2 : false ∈ l := by simpa using hm
    rw [h3 hm2, hfs]

theorem write_to_file_body_log (path content : List Char) (w : World) :
    (write_to_file_body path content w).2.confirmLog = w.confirmLog := by
  unfold write_to_file_body
  simp only []
  split <;> rfl

theorem append_to_file_log (path content : List Char) (w : World) :
    (append_to_file path content w).2.confirmLog = w.confirmLog := by
  unfold append_to_file
  split <;> rfl

theorem copy_to_clipboard_log (text : List Char) (w : World) :
    (copy_to_clipboard text w).2.confirmLog = w.confirmLog := by
  unfold copy_to_clipboard
  split <;> rfl

theorem read_file_log (path : List Char) (w : World) :
    (read_file path w).2.confirmLog = w.confirmLog := by
  unfold read_file
  split
  · rfl
  · split
    · split <;> rfl
    · rfl

theorem write_to_file_trace (path content : List Char) (overwrite force : Bool) (w : World) :
    Trace force w (write_to_file path content overwrite force w).2 := by
  have hg := write_to_file_gate_spec path overwrite force w
  unfold write_to_file
  simp only []
  cases hpass : (write_to_file_gate path overwrite force w).1
  · simpa using trace_gate force w _ hg
  · simpa using trace_after_gate force w _ _ hg hpass
      (trace_quiet force _ _ (write_to_file_body_log path content _))

theorem delete_file_content_trace (path : List Char) (force : Bool) (w : World) :
    Trace force w (delete_file_content path force w).2 := by
  unfold delete_file_content
  simp only []
  split
  · exact trace_quiet _ _ _ rfl
  · split
    · exact trace_quiet _ _ _ rfl
    · split
      · exact trace_quiet _ _ _ rfl
      · have hg : Gate force w (if (!force) = true then
            confirm_or_cancel "Warning: This will delete all content from '%s' (%s).\n"
              "Do you want to continue?" w
            else (true, w)) := by
          cases force
          · exact gate_confirm false rfl _ _ w
          · exact gate_pass _ _
        generalize (if (!force) = true then
            confirm_or_cancel "Warning: This will delete all content from '%s' (%s).\n"
              "Do you want to continue?" w
            else (true, w)) = g at hg
        cases hpass : g.1
        · simpa using trace_gate force w g hg
        · refine trace_after_gate force w g _ hg hpass (trace_quiet force _ _ ?_)
          simp only [Bool.not_true, Bool.false_eq_true, if_false]
          split <;> rfl

theorem main_into_file_trace (filename content : List Char) (o : Options)
    (appended written : String) (w : World) :
    Trace o.force_mode w (main_into_file filename content o appended written w).2 := by
  have hg := main_overwrite_gate_spec filename o w
  unfold main_into_file
  simp only []
  cases hpass : (main_overwrite_gate filename o w).1
  · simpa using trace_gate _ w _ hg
  · refine trace_after_gate _ w _ _ hg hpass ?_
    simp only [Bool.not_true, Bool.false_eq_true, if_false]
    split
    · refine trace_quiet _ _ _ ?_
      split <;> simp [append_to_file_log]
    · obtain ⟨l, h1, h2, h3⟩ := write_to_file_trace filename content false o.force_mode
        (main_overwrite_gate filename o w).2
      refine ⟨l, ?_, h2, ?_⟩
      · split <;> simpa using h1
      · intro hm
        split <;> simpa using h3 hm

theorem main_stdin_clipboard_log (input : List Char) (w : World) :
    (main_stdin_clipboard input w).2.confirmLog = w.confirmLog := by
  unfold main_stdin_clipboard
  simp only []
  split <;> simp [copy_to_clipboard_log]

theorem main_stdin_trace (o : Options) (w : World) :
    Trace o.force_mode w (main_stdin o w).2 := by
  have hrl : (read_from_stdin w).2.confirmLog = w.confirmLog := rfl
  have hrf : (read_from_stdin w).2.fs = w.fs := rfl
  have lift : ∀ w2, Trace o.force_mode (read_from_stdin w).2 w2 → Trace o.force_mode w w2 := by
    intro w2 ⟨l, h1, h2, h3⟩
    exact ⟨l, by rw [h1, hrl], h2, fun hm => by rw [h3 hm, hrf]⟩
  unfold main_stdin
  simp only []
  split
  · exact trace_quiet _ _ _ rfl
  · split
    · exact trace_quiet _ _ _ rfl
    · split
      · split
        · exact lift _ (main_into_file_trace _ _ _ _ _ _)
        · exact lift _ (trace_quiet _ _ _ (main_stdin_clipboard_log _ _))
      · exact lift _ (trace_quiet _ _ _ (main_stdin_clipboard_log _ _))

theorem main_delete_trace (o : Options) (w : World) :
    Trace o.force_mode w (main_delete o w).2 := by
  unfold main_delete
  split
  · exact trace_quiet _ _ _ rfl
  · exact delete_file_content_trace _ _ _

theorem main_paste_trace (o : Options) (w : World) :
    Trace o.force_mode w (main_paste o w).2 := by
  unfold main_paste
  split
  · exact trace_quiet _ _ _ rfl
  · simp only []
    split
    · exact trace_quiet _ _ _ rfl
    · split
      · exact trace_quiet _ _ _ rfl
      · exact main_into_file_trace _ _ _ _ _ _

theorem main_copy_deliver_log (content : List Char) (o : Options) (w : World) :
    (main_copy_deliver content o w).2.confirmLog = w.confirmLog := by
  unfold main_copy_deliver
  simp only []
  split
  · rfl
  · split <;> simp [copy_to_clipboard_log]

theorem main_copy_stdin_log (w : World) :
    (main_copy_stdin w).2.confirmLog = w.confirmLog := by
  unfold main_copy_stdin
  simp only []
  split
  · split
    · split <;> simp [copy_to_clipboard_log, read_from_stdin]
    · rfl
  · rfl

theorem main_copy_trace (o : Options) (w : World) :
    Trace o.force_mode w (main_copy o w).2 := by
  unfold main_copy
  split
  · exact trace_quiet _ _ _ (main_copy_stdin_log w)
  · rename_i filename _
    split
    · exact trace_quiet _ _ _ rfl
    · split
      · exact trace_quiet _ _ _ rfl
      · have hg := main_copy_gate_spec filename o w
        simp only []
        cases hpass : (main_copy_gate filename o w).1
        · simpa using trace_gate _ w _ hg
        · refine trace_after_gate _ w _ _ hg hpass (trace_quiet _ _ _ ?_)
          simp only [Bool.not_true, Bool.false_eq_true, if_false]
          split
          · exact read_file_log _ _
          · rw [main_copy_deliver_log]
            exact read_file_log _ _

/-- The log and file-system behaviour of the part of `main` after the argument loop. -/
theorem main_run_trace (argc : Nat) (o : Options) (w : World) :
    Trace o.force_mode w (main_run argc o w).2 := by
  unfold main_run
  split
  · exact main_stdin_trace o w
  · split
    · exact main_delete_trace o w
    · split
      · exact main_paste_trace o w
      · split
        · exact main_copy_trace o w
        · exact trace_quiet _ _ _ rfl

/-! ## Appending -/

/-- One `append_to_file` on an existing regular file that can be opened: the
separator goes in exactly when the file is not empty. -/
theorem append_to_file_existing (path content old : List Char) (w : World)
    (hnode : w.fs.node path = some (Node.file old))
    (hw : w.fs.denyWrite path = false) (hr : w.fs.denyRead path = false) :
    (append_to_file path content w).1 = true ∧
      (append_to_file path content w).2.fs.node path =
        some (Node.file (if old = [] then cstr content else old ++ '\n' :: cstr content)) ∧
      (append_to_file path content w).2.fs.denyWrite = w.fs.denyWrite ∧
      (append_to_file path content w).2.fs.denyRead = w.fs.denyRead := by
  cases old with
  | nil => simp [append_to_file, fopen_w, fopen_r_size, fwrite, set_node, hnode, hw, hr]
  | cons c old =>
    simp [append_to_file, fopen_w, fopen_r_size, fwrite, set_node, hnode, hw, hr]

/-- One `append_to_file` on a path where nothing exists yet and a file can be created. -/
theorem append_to_file_fresh (path content : List Char) (w : World)
    (hnode : w.fs.node path = none)
    (hw : w.fs.denyWrite path = false) (hc : can_create w.fs path = true) :
    (append_to_file path content w).1 = true ∧
      (append_to_file path content w).2.fs.node path = some (Node.file (cstr content)) ∧
      (append_to_file path content w).2.fs.denyWrite = w.fs.denyWrite ∧
      (append_to_file path content w).2.fs.denyRead = w.fs.denyRead := by
  cases hr : w.fs.denyRead path <;>
    simp [append_to_file, fopen_w, fopen_r_size, fwrite, set_node, hnode, hw, hc, hr]

/-! ## Confirmation, exit codes and appending: the claims -/

/-- C3: in a run of `main` that starts with an empty confirmation log, whenever
some issued prompt is declined (or meets end of input), the target file holds
afterwards the bytes it held before.  This covers paste-to-file in overwrite
mode, with its prompt in `main` and its prompt in `write_to_file`, and delete mode. -/
theorem declined_prompt_keeps_target (argv : List (List Char)) (w : World)
    (path bytes : List Char) (hlog : w.confirmLog = [])
    (hfile : w.fs.node path = some (Node.file bytes))
    (hdecl : false ∈ (main argv w).2.confirmLog) :
    (main argv w).2.fs.node path = some (Node.file bytes) := by
  unfold main at hdecl ⊢
  split at hdecl
  · simp [hlog] at hdecl
  · simp [hlog] at hdecl
  · rename_i o _
    obtain ⟨l, h1, _, h3⟩ := main_run_trace argv.length o w
    rw [h1, hlog, List.nil_append] at hdecl
    rw [h3 hdecl, hfile]

/-- C3, on a paste over "old" answered yes then no, and on a delete answered no. -/
theorem declined_prompt_keeps_target_witness :
    (false ∈ (main ["copy".toList, "-p".toList, "f".toList]
        (world_of [("f".toList, Node.file "old".toList)] "y\nn\n".toList
          (some "new".toList))).2.confirmLog ∧
      (main ["copy".toList, "-p".toList, "f".toList]
        (world_of [("f".toList, Node.file "old".toList)] "y\nn\n".toList
          (some "new".toList))).2.fs.node "f".toList = some (Node.file "old".toList)) ∧
    (false ∈ (main ["copy".toList, "-d".toList, "f".toList]
        (world_of [("f".toList, Node.file "old".toList)] "n\n".toList none)).2.confirmLog ∧
      (main ["copy".toList, "-d".toList, "f".toList]
        (world_of [("f".toList, Node.file "old".toList)] "n\n".toList none)).2.fs.node
          "f".toList = some (Node.file "old".toList)) :=
  ⟨⟨by decide,
      declined_prompt_keeps_target ["copy".toList, "-p".toList, "f".toList]
        (world_of [("f".toList, Node.file "old".toList)] "y\nn\n".toList (some "new".toList))
        "f".toList "old".toList rfl rfl (by decide)⟩,
    ⟨by decide,
      declined_prompt_keeps_target ["copy".toList, "-d".toList, "f".toList]
        (world_of [("f".toList, Node.file "old".toList)] "n\n".toList none)
        "f".toList "old".toList rfl rfl (by decide)⟩⟩

/-- C4: pasting "new" over the file "old" with the answers yes, then no: the
prompt of `main` is accepted, the prompt of `write_to_file` is declined, the
file is untouched, and `main` returns 1, not 2. -/
theorem paste_accept_then_decline_exit_code :
    (main ["copy".toList, "-p".toList, "f".toList]
        (world_of [("f".toList, Node.file "old".toList)] "y\nn\n".toList
          (some "new".toList))).1 = 1 ∧
      (main ["copy".toList, "-p".toList, "f".toList]
        (world_of [("f".toList, Node.file "old".toList)] "y\nn\n".toList
          (some "new".toList))).2.confirmLog = [true, false] ∧
      (main ["copy".toList, "-p".toList, "f".toList]
        (world_of [("f".toList, Node.file "old".toList)] "y\nn\n".toList
          (some "new".toList))).2.fs.node "f".toList = some (Node.file "old".toList) := by
  decide

/-- C5: deleting the content of the file "data" with the answer no: the one
prompt is declined, the file is untouched, and `main` returns 1, not 2. -/
theorem delete_declined_exit_code :
    (main ["copy".toList, "-d".toList, "f".toList]
        (world_of [("f".toList, Node.file "data".toList)] "n\n".toList none)).1 = 1 ∧
      (main ["copy".toList, "-d".toList, "f".toList]
        (world_of [("f".toList, Node.file "data".toList)] "n\n".toList none)).2.confirmLog
          = [false] ∧
      (main ["copy".toList, "-d".toList, "f".toList]
        (world_of [("f".toList, Node.file "data".toList)] "n\n".toList none)).2.fs.node
          "f".toList = some (Node.file "data".toList) := by
  decide

/-- C6, as stated, fails for an empty first string: appending "" and then "b"
to a path where nothing exists leaves "b", without the separator. -/
theorem append_twice_empty_first :
    (append_to_file "f".toList "b".toList
        (append_to_file "f".toList [] (world_of [] [] none)).2).2.fs.node "f".toList
      = some (Node.file "b".toList) ∧
    (append_to_file "f".toList "b".toList
        (append_to_file "f".toList [] (world_of [] [] none)).2).2.fs.node "f".toList
      ≠ some (Node.file ([] ++ "\n".toList ++ "b".toList)) := by
  decide

/-- C6 (amended): for every path whose file is empty or does not exist and can
be opened for appending and for reading, and for all NUL-free strings first and
second, `append_to_file(path, first)` then `append_to_file(path, second)` both
succeed and leave the file holding first, one newline, second when first is not
empty, and second alone when first is empty. -/
theorem append_twice_one_separator (w : World) (path first second : List Char)
    (hfile : w.fs.node path = none ∨ w.fs.node path = some (Node.file []))
    (hw : w.fs.denyWrite path = false) (hr : w.fs.denyRead path = false)
    (hc : w.fs.node path = none → can_create w.fs path = true)
    (h1 : NUL ∉ first) (h2 : NUL ∉ second) :
    (append_to_file path first w).1 = true ∧
      (append_to_file path second (append_to_file path first w).2).1 = true ∧
      (append_to_file path second (append_to_file path first w).2).2.fs.node path =
        some (Node.file (if first = [] then second else first ++ '\n' :: second)) := by
  have hstep : (append_to_file path first w).1 = true ∧
      (append_to_file path first w).2.fs.node path = some (Node.file first) ∧
      (append_to_file path first w).2.fs.denyWrite = w.fs.denyWrite ∧
      (append_to_file path first w).2.fs.denyRead = w.fs.denyRead := by
    rcases hfile with hnone | hempty
    · simpa [cstr_eq_self first h1] using append_to_file_fresh path first w hnone hw (hc hnone)
    · simpa [cstr_eq_self first h1] using append_to_file_existing path first [] w hempty hw hr
  obtain ⟨s1, s2, s3, s4⟩ := hstep
  have hnext := append_to_file_existing path second first (append_to_file path first w).2 s2
    (by rw [s3]; exact hw) (by rw [s4]; exact hr)
  rw [cstr_eq_self second h2] at hnext
  exact ⟨s1, hnext.1, hnext.2.1⟩

/-- C6 (amended), on "a" then "b" at a path where nothing exists. -/
theorem append_twice_one_separator_witness :
    ((world_of [] [] none).fs.node "f".toList = none ∨
        (world_of [] [] none).fs.node "f".toList = some (Node.file [])) ∧
      (append_to_file "f".toList "b".toList
        (append_to_file "f".toList "a".toList (world_of [] [] none)).2).2.fs.node "f".toList =
        some (Node.file "a\nb".toList) :=
  ⟨Or.inl rfl,
    (append_twice_one_separator (world_of [] [] none) "f".toList "a".toList "b".toList
      (Or.inl rfl) rfl rfl (fun _ => by decide) (by decide) (by decide)).2.2⟩

/-- C8, as stated, fails when `-f` stands where `-m` takes its value: the force
flag stays unset and delete mode prompts, reading a line of input. -/
theorem force_argument_taken_as_value :
    "-f".toList ∈ ["copy".toList, "-d".toList, "-m".toList, "-f".toList, "f".toList] ∧
      (world_of [("f".toList, Node.file "data".toList)] "n\n".toList none).confirmLog = [] ∧
      (main ["copy".toList, "-d".toList, "-m".toList, "-f".toList, "f".toList]
        (world_of [("f".toList, Node.file "data".toList)] "n\n".toList none)).2.confirmLog
          = [false] ∧
      (main ["copy".toList, "-d".toList, "-m".toList, "-f".toList, "f".toList]
        (world_of [("f".toList, Node.file "data".toList)] "n\n".toList none)).2.stdin = [] := by
  decide

/-- C8 (amended): when the argument loop leaves the force flag set, that is for
every argument list in which `-f`/`--force` is read as a flag, and for every
file system, clipboard and stdin state, the run of `main`, whatever its mode,
never calls `get_user_confirmation`: the confirmation log is as before. -/
theorem force_mode_never_prompts (argv : List (List Char)) (w : World)
    (hforce : ∀ o, parse_args (argv.drop 1) {} = Parsed.run o → o.force_mode = true) :
    (main argv w).2.confirmLog = w.confirmLog := by
  unfold main
  split
  · rfl
  · rfl
  · rename_i o ho
    obtain ⟨l, h1, h2, _⟩ := main_run_trace argv.length o w
    rw [h1, h2 (hforce o ho), List.append_nil]

/-- C8 (amended), on a forced delete of a non-empty file with pending input. -/
theorem force_mode_never_prompts_witness :
    (main ["copy".toList, "-d".toList, "-f".toList, "f".toList]
        (world_of [("f".toList, Node.file "data".toList)] "n\n".toList none)).2.confirmLog = [] ∧
      (main ["copy".toList, "-d".toList, "-f".toList, "f".toList]
        (world_of [("f".toList, Node.file "data".toList)] "n\n".toList none)).2.fs.node
          "f".toList = some (Node.file []) :=
  ⟨force_mode_never_prompts ["copy".toList, "-d".toList, "-f".toList, "f".toList]
      (world_of [("f".toList, Node.file "data".toList)] "n\n".toList none)
      (fun o h => by
        have hp : parse_args (["copy".toList, "-d".toList, "-f".toList, "f".toList].drop 1) {} =
            Parsed.run { copy_mode := false, delete_mode := true, force_mode := true,
                         filename := some "f".toList } := by decide
        rw [hp] at h
        cases h
        rfl),
    by decide⟩

/-! ## Empty standard input and empty clipboard: the claims -/

/-- C12, as stated, fails on empty input: with standard input at its end and no
byte read, `read_from_stdin` returns NULL and `copy -s -o` reports the failure
and returns 1. -/
theorem read_from_stdin_empty_fails :
    (read_from_stdin (world_of [] [] none)).1 = none ∧
      (main ["copy".toList, "-s".toList, "-o".toList] (world_of [] [] none)).1 = 1 ∧
      (main ["copy".toList, "-s".toList, "-o".toList] (world_of [] [] none)).2.out =
        [Out.err "Failed to read from stdin\n"] := by
  decide

/-- C12 (amended): `read_from_stdin` returns NULL exactly when standard input
holds no byte, and all of the input otherwise; a run in stdin mode on empty
input reports "Failed to read from stdin" and returns 1, and `-s -o` returns 0
as soon as there is at least one byte. -/
theorem read_from_stdin_needs_data (w : World) :
    ((read_from_stdin w).1 = none ↔ w.stdin = []) ∧
      (w.stdin ≠ [] → (read_from_stdin w).1 = some w.stdin) ∧
      (∀ (argc : Nat) (o : Options), o.stdin_mode = true → w.stdin = [] →
        main_run argc o w =
          (1, say { w with stdin := [] } (Out.err "Failed to read from stdin\n"))) ∧
      (w.stdin ≠ [] → (main ["copy".toList, "-s".toList, "-o".toList] w).1 = 0) := by
  refine ⟨?_, ?_, ?_, ?_⟩
  · by_cases h : w.stdin = [] <;> simp [read_from_stdin, h]
  · intro h
    simp [read_from_stdin, h]
  · intro argc o ho h
    simp [main_run, main_stdin, read_from_stdin, ho, h]
  · intro h
    have hp : parse_args (["copy".toList, "-s".toList, "-o".toList].drop 1) {} =
        Parsed.run { stdin_mode := true, stdout_mode := true } := by decide
    unfold main
    rw [hp]
    simp [main_run, main_stdin, read_from_stdin, h]

/-- C12 (amended), on the input "x" and on empty input. -/
theorem read_from_stdin_needs_data_witness :
    (read_from_stdin (world_of [] "x".toList none)).1 = some "x".toList ∧
      (main ["copy".toList, "-s".toList, "-o".toList] (world_of [] "x".toList none)).1 = 0 ∧
      main_run 3 { stdin_mode := true, stdout_mode := true } (world_of [] [] none) =
        (1, say { world_of [] [] none with stdin := [] } (Out.err "Failed to read from stdin\n")) :=
  ⟨(read_from_stdin_needs_data (world_of [] "x".toList none)).2.1 (by decide),
    (read_from_stdin_needs_data (world_of [] "x".toList none)).2.2.2 (by decide),
    (read_from_stdin_needs_data (world_of [] [] none)).2.2.1 3
      { stdin_mode := true, stdout_mode := true } rfl rfl⟩

/-- C13: with a clipboard helper that runs and delivers zero bytes,
`paste_from_clipboard` returns NULL, not an empty string, and `copy -p` prints
"Clipboard is empty or inaccessible" on stderr and returns 1; the branch of
`main` for an empty clipboard, which returns 0, is not reached. -/
theorem paste_empty_clipboard_exit_code :
    paste_from_clipboard (world_of [] [] (some [])) = none ∧
      (main ["copy".toList, "-p".toList] (world_of [] [] (some []))).1 = 1 ∧
      (main ["copy".toList, "-p".toList] (world_of [] [] (some []))).2.out =
        [Out.err "Clipboard is empty or inaccessible\n"] := by
  decide

/-! ## The no-newline block of stdin mode -/

theorem rdropWhile_append_of_exists (p : Char → Bool) (a b : List Char)
    (h : ∃ x ∈ b, p x = false) :
    (a ++ b).rdropWhile p = a ++ b.rdropWhile p := by
  have hne : b.reverse.dropWhile p ≠ [] := by
    intro hnil
    obtain ⟨x, hx, hpx⟩ := h
    have := (List.dropWhile_eq_nil_iff.mp hnil) x (List.mem_reverse.mpr hx)
    rw [hpx] at this
    cases this
  unfold List.rdropWhile
  rw [List.reverse_append, List.dropWhile_append]
  have hemp : (List.dropWhile p b.reverse).isEmpty = false := by
    cases hd : List.dropWhile p b.reverse with
    | nil => exact absurd hd hne
    | cons x xs => rfl
  rw [hemp]
  simp

/-- The backward scan of `trim_whitespace` cuts the trailing white space of the
part it scans, when the string starts with a byte that is not white space. -/
theorem trim_scan_spec (str : List Char) (c : Char) (tl : List Char) (hstr : str = c :: tl)
    (hc : isspace c = false) :
    ∀ k, k < str.length →
      str.take (trim_scan str k + 1) = (str.take (k + 1)).rdropWhile isspace := by
  intro k
  induction k with
  | zero =>
    intro _
    subst hstr
    simp [trim_scan, List.rdropWhile_singleton, hc]
  | succ k ih =>
    intro hk
    have hget : str[k + 1]? = some str[k + 1] := List.getElem?_eq_getElem hk
    have htake : str.take (k + 1 + 1) = str.take (k + 1) ++ [str[k + 1]] := by
      rw [List.take_succ, hget]; rfl
    rw [htake]
    by_cases hsp : isspace str[k + 1] = true
    · rw [List.rdropWhile_concat_pos _ _ _ hsp, ← ih (by omega)]
      simp [trim_scan, hget, hsp]
    · rw [List.rdropWhile_concat_neg _ _ _ hsp, ← htake]
      simp [trim_scan, hget, hsp]

/-- The newline loop of `main` changes nothing when the last byte is not a line ending. -/
theorem strip_newlines_id (t : List Char) (hlast : ∀ c, t.getLast? = some c → isspace c = false) :
    strip_newlines t t.length = t := by
  rcases List.eq_nil_or_concat t with rfl | ⟨init, c, rfl⟩
  · rfl
  · rw [List.concat_eq_append] at hlast ⊢
    have hc := hlast c (by simp)
    have hlen : (init ++ [c]).length = init.length + 1 := by simp
    have hget : (init ++ [c])[init.length]? = some c := by simp
    have h1 : c ≠ '\n' := by rintro rfl; exact absurd hc (by decide)
    have h2 : c ≠ '\r' := by rintro rfl; exact absurd hc (by decide)
    rw [hlen, strip_newlines, hget]
    simp [h1, h2]

/-- With `-n`, a NUL-free input that holds a byte other than white space leaves
the block without its trailing white space and otherwise unchanged. -/
theorem no_newline_block_spec (input : List Char) (hnul : NUL ∉ input)
    (hbody : ∃ c ∈ input, isspace c = false) :
    no_newline_block input = input.rdropWhile isspace := by
  have hsplit : input = input.takeWhile isspace ++ input.dropWhile isspace :=
    (List.takeWhile_append_dropWhile isspace input).symm
  have hdrop : input.drop (input.takeWhile isspace).length = input.dropWhile isspace := by
    have h := List.drop_left (input.takeWhile isspace) (input.dropWhile isspace)
    rwa [← hsplit] at h
  have htake : input.take (input.takeWhile isspace).length = input.takeWhile isspace := by
    have h := List.take_left (input.takeWhile isspace) (input.dropWhile isspace)
    rwa [← hsplit] at h
  have hne : input.dropWhile isspace ≠ [] := by
    intro hnil
    obtain ⟨c, hc, hsp⟩ := hbody
    have := (List.dropWhile_eq_nil_iff.mp hnil) c hc
    rw [hsp] at this
    cases this
  obtain ⟨c, tl, hstr⟩ := List.exists_cons_of_ne_nil hne
  have hc : isspace c = false := by
    have h := List.head_dropWhile_not isspace input hne
    simp only [hstr, List.head_cons] at h
    simpa using h
  have hex : ∃ x ∈ input.dropWhile isspace, isspace x = false :=
    ⟨c, by rw [hstr]; exact List.mem_cons_self _ _, hc⟩
  have hcore : (input.dropWhile isspace).take
      (trim_scan (input.dropWhile isspace) ((input.dropWhile isspace).length - 1) + 1) =
      (input.dropWhile isspace).rdropWhile isspace := by
    have hlen : 0 < (input.dropWhile isspace).length := List.length_pos.mpr hne
    rw [trim_scan_spec _ c tl hstr hc _ (by omega)]
    have : (input.dropWhile isspace).length - 1 + 1 = (input.dropWhile isspace).length := by omega
    rw [this, List.take_length]
  have hcne : (input.dropWhile isspace).rdropWhile isspace ≠ [] := by
    intro hnil
    obtain ⟨x, hx, hsp⟩ := hex
    have := (List.rdropWhile_eq_nil_iff.mp hnil) x hx
    rw [hsp] at this
    cases this
  have hlast : ∀ d, ((input.dropWhile isspace).rdropWhile isspace).getLast? = some d →
      isspace d = false := by
    intro d hd
    have h := List.rdropWhile_last_not isspace (input.dropWhile isspace) hcne
    rw [List.getLast?_eq_getLast _ hcne] at hd
    have hd2 := Option.some.inj hd
    rw [hd2] at h
    simpa using h
  have htw : trim_whitespace input =
      (input.takeWhile isspace ++ (input.dropWhile isspace).rdropWhile isspace,
        (input.takeWhile isspace).length) := by
    unfold trim_whitespace
    simp only [cstr_eq_self input hnul, hdrop, htake, hne, if_false, hcore]
  unfold no_newline_block
  simp only [htw, List.drop_left, List.take_left, strip_newlines_id _ hlast]
  conv_rhs => rw [hsplit]
  exact (rdropWhile_append_of_exists isspace _ _ hex).symm

/-- C11, as stated, fails on "a \n" and on "\n\n": `copy -s -n -o` prints "a",
so the space before the line ending is removed too, and it prints an input of
line endings only as it came, not as the empty string. -/
theorem no_newline_cuts_spaces_keeps_blank_input :
    (main ["copy".toList, "-s".toList, "-n".toList, "-o".toList]
        (world_of [] "a \n".toList none)).2.out = [Out.text "a".toList] ∧
      (main ["copy".toList, "-s".toList, "-n".toList, "-o".toList]
        (world_of [] "a \n".toList none)).2.out ≠ [Out.text "a ".toList] ∧
      (main ["copy".toList, "-s".toList, "-n".toList, "-o".toList]
        (world_of [] "\n\n".toList none)).2.out = [Out.text "\n\n".toList] := by
  decide

/-- C11 (amended): with the no-trailing-newline flag set on the stdin path, for
every NUL-free input that holds at least one byte other than white space, the
content delivered to the sink (stdout, the file code, or the clipboard) is the
input with its maximal trailing run of white space (space, `\t`, `\n`, `\v`,
`\f`, `\r`) removed and nothing else changed; leading characters are kept. -/
theorem no_newline_delivers_right_trimmed (argc : Nat) (o : Options) (w : World)
    (hs : o.stdin_mode = true) (hn : o.no_newline = true) (hnul : NUL ∉ w.stdin)
    (hbody : ∃ c ∈ w.stdin, isspace c = false) :
    no_newline_block w.stdin = w.stdin.rdropWhile isspace ∧
      (o.stdout_mode = true →
        main_run argc o w =
          (0, say { w with stdin := [] } (Out.text (w.stdin.rdropWhile isspace)))) ∧
      (o.stdout_mode = false → ∀ filename, o.filename = some filename → o.paste_mode = true →
        main_run argc o w =
          main_into_file filename (w.stdin.rdropWhile isspace) o "Appended %ld bytes to '%s'\n"
            "Written %ld bytes to '%s'\n" { w with stdin := [] }) ∧
      (o.stdout_mode = false → (o.filename = none ∨ o.paste_mode = false) →
        main_run argc o w =
          main_stdin_clipboard (w.stdin.rdropWhile isspace) { w with stdin := [] }) ∧
      (o.stdout_mode = false → (o.filename = none ∨ o.paste_mode = false) →
        w.clipAccepts = true →
        (main_run argc o w).2.clipboard = some (w.stdin.rdropWhile isspace)) := by
  have hblock := no_newline_block_spec w.stdin hnul hbody
  have hne : w.stdin ≠ [] := by
    obtain ⟨c, hc, _⟩ := hbody
    exact List.ne_nil_of_mem hc
  have hnul2 : NUL ∉ w.stdin.rdropWhile isspace :=
    fun hm => hnul ((List.rdropWhile_prefix isspace w.stdin).subset hm)
  have hrun : main_run argc o w = main_stdin o w := by
    simp [main_run, hs]
  have hclip : o.stdout_mode = false → (o.filename = none ∨ o.paste_mode = false) →
      main_run argc o w =
        main_stdin_clipboard (w.stdin.rdropWhile isspace) { w with stdin := [] } := by
    intro hout hsink
    rw [hrun]
    rcases hsink with hnone | hpaste
    · simp [main_stdin, read_from_stdin, hne, hn, hblock, hout, hnone]
    · cases hf : o.filename <;>
        simp [main_stdin, read_from_stdin, hne, hn, hblock, hout, hf, hpaste]
  refine ⟨hblock, ?_, ?_, hclip, ?_⟩
  · intro hout
    rw [hrun]
    simp [main_stdin, read_from_stdin, hne, hn, hblock, hout, cstr_eq_self _ hnul2]
  · intro hout filename hf hpaste
    rw [hrun]
    simp [main_stdin, read_from_stdin, hne, hn, hblock, hout, hf, hpaste]
  · intro hout hsink hacc
    rw [hclip hout hsink]
    simp [main_stdin_clipboard, copy_to_clipboard, hacc, say, cstr_eq_self _ hnul2]

/-- C11 (amended), on the input "  a b \t\r\n" sent to stdout: the two leading
spaces stay and everything after "b" goes. -/
theorem no_newline_delivers_right_trimmed_witness :
    (∃ c ∈ (world_of [] "  a b \t\r\n".toList none).stdin, isspace c = false) ∧
      "  a b \t\r\n".toList.rdropWhile isspace = "  a b".toList ∧
      main_run 4 { stdin_mode := true, no_newline := true, stdout_mode := true }
          (world_of [] "  a b \t\r\n".toList none) =
        (0, say { world_of [] "  a b \t\r\n".toList none with stdin := [] }
          (Out.text ((world_of [] "  a b \t\r\n".toList none).stdin.rdropWhile isspace))) :=
  ⟨⟨'a', by decide, by decide⟩, by decide,
    (no_newline_delivers_right_trimmed 4
      { stdin_mode := true, no_newline := true, stdout_mode := true }
      (world_of [] "  a b \t\r\n".toList none) rfl rfl (by decide)
      ⟨'a', by decide, by decide⟩).2.1 rfl⟩


/-! ## Human-readable sizes: the claim -/

end Copy
